import Mathlib

/-!
Verification of the type-effectiveness aggregation core of the
pokemon-research-team repository: the weakness/resistance resolver in
`PokemonAPI._parse_pokemon_data`, the aggregate analyzer
`PokemonAPI.analyze_type_weaknesses` (both `src/tools/pokemon_api.py`),
and the findings ordering of `ReporterAgent.generate_report`
(`src/agents/research_agents.py`).

Python sets are modelled as duplicate-free lists (claims about them are
stated through `List.toFinset`), insertion-ordered dicts as association
lists, and the external HTTP fetch as a function into `Option`.
-/

namespace PokemonResearch

/-- A normalized record (`PokemonStats` in `pokemon_api.py`): name, ordered
type list and the derived weakness/resistance lists. The six base stats are
carried by the source dataclass but no claim concerns them, so they are
omitted here. -/
structure CreatureRecord where
  name : String
  types : List String
  weaknesses : List String
  resistances : List String
deriving DecidableEq

/-- The static simplified type-effectiveness chart returned by
`PokemonAPI._get_simplified_type_chart`: each entry maps a type name to its
(weaknesses, resistances) pair, in source order. -/
def type_effectiveness : List (String × List String × List String) :=
  [ ("fire", (["water", "ground", "rock"],
      ["fire", "grass", "ice", "bug", "steel", "fairy"])),
    ("water", (["electric", "grass"], ["fire", "water", "ice", "steel"])),
    ("grass", (["fire", "ice", "poison", "flying", "bug"],
      ["water", "electric", "grass", "ground"])),
    ("electric", (["ground"], ["electric", "flying", "steel"])),
    ("psychic", (["bug", "ghost", "dark"], ["fighting", "psychic"])),
    ("ice", (["fire", "fighting", "rock", "steel"], ["ice"])),
    ("dragon", (["ice", "dragon", "fairy"],
      ["fire", "water", "electric", "grass"])),
    ("dark", (["fighting", "bug", "fairy"], ["ghost", "dark"])),
    ("fairy", (["poison", "steel"], ["fighting", "bug", "dark"])),
    ("normal", (["fighting"], [])),
    ("fighting", (["flying", "psychic", "fairy"], ["rock", "bug", "dark"])),
    ("poison", (["ground", "psychic"],
      ["grass", "fighting", "poison", "bug", "fairy"])),
    ("ground", (["water", "grass", "ice"], ["poison", "rock"])),
    ("flying", (["electric", "ice", "rock"], ["grass", "fighting", "bug"])),
    ("bug", (["fire", "flying", "rock"], ["grass", "fighting", "ground"])),
    ("rock", (["water", "grass", "fighting", "ground", "steel"],
      ["normal", "fire", "poison", "flying"])),
    ("ghost", (["ghost", "dark"], ["poison", "bug"])),
    ("steel", (["fire", "fighting", "ground"],
      ["normal", "grass", "ice", "flying", "psychic", "bug", "rock",
       "dragon", "steel", "fairy"])) ]

/-- Association-list lookup, modelling Python `ptype in table` /
`table[ptype]`. -/
def lookupType : List (String × List String × List String) → String →
    Option (List String × List String)
  | [], _ => none
  | (k, v) :: rest, t => if k = t then some v else lookupType rest t

/-- Python `set.update(xs)` on a set modelled as a duplicate-free list: each
element of `xs` not already present is appended. -/
def setUpdate (s : List String) (xs : List String) : List String :=
  xs.foldl (fun acc x => if x ∈ acc then acc else acc ++ [x]) s

/-- One iteration of the type loop in `_parse_pokemon_data` (lines
158-161): a type present in the table unions its weaknesses and
resistances into the accumulating sets; an absent type is skipped. -/
def resolveStep (table : List (String × List String × List String))
    (acc : List String × List String) (ptype : String) :
    List String × List String :=
  match lookupType table ptype with
  | some p => (setUpdate acc.1 p.1, setUpdate acc.2 p.2)
  | none => acc

/-- The weakness/resistance resolver of `_parse_pokemon_data` (lines
154-164): starting from two empty sets, process each type, then remove
every resistance from the weakness set (`weaknesses - resistances`). -/
def resolve (types : List String)
    (table : List (String × List String × List String)) :
    List String × List String :=
  let acc := types.foldl (resolveStep table) ([], [])
  (acc.1.filter (fun w => decide (w ∉ acc.2)), acc.2)

/-- One step of the reference resolver, written from the spec's words
(section 4.1) over finite sets, for the refinement claim: if the type is
present in the table, union its weaknesses and resistances in. -/
def resolveSpecStep (table : List (String × List String × List String))
    (acc : Finset String × Finset String) (t : String) :
    Finset String × Finset String :=
  match lookupType table t with
  | some p => (acc.1 ∪ p.1.toFinset, acc.2 ∪ p.2.toFinset)
  | none => acc

/-- Reference resolver from the spec's words (section 4.1): two empty sets,
union per type present in the table, then set difference. -/
def resolveSpec (types : List String)
    (table : List (String × List String × List String)) :
    Finset String × Finset String :=
  let acc := types.foldl (resolveSpecStep table) (∅, ∅)
  (acc.1 \ acc.2, acc.2)

/-- One tally step, Python
`weakness_count[w] = weakness_count.get(w, 0) + 1` on an insertion-ordered
dict modelled as an association list: an existing key is incremented in
place, a new key is appended. -/
def bump : List (String × Nat) → String → List (String × Nat)
  | [], w => [(w, 1)]
  | (k, v) :: rest, w =>
      if k = w then (k, v + 1) :: rest else (k, v) :: bump rest w

/-- The counting loop of `analyze_type_weaknesses` (lines 190-195)
restricted to the successfully fetched records: every weakness of every
record bumps its counter. -/
def tally (records : List CreatureRecord) : List (String × Nat) :=
  records.foldl (fun counts r => r.weaknesses.foldl bump counts) []

/-- Counter lookup with default 0, Python `weakness_count.get(w, 0)`. -/
def getCount : List (String × Nat) → String → Nat
  | [], _ => 0
  | (k, v) :: rest, w => if k = w then v else getCount rest w

/-- Python `max(items, key=...)` on the second component: the first element
attaining the maximal value (a strictly greater value replaces the current
best, ties keep the earlier element). -/
def pythonMax : List (String × ℚ) → Option (String × ℚ)
  | [] => none
  | x :: xs => some (xs.foldl (fun best y => if best.2 < y.2 then y else best) x)

/-- The result dictionary of `analyze_type_weaknesses` (lines 202-207),
minus the echoed category name. -/
structure AggregateResult where
  analyzed_pokemon_count : Nat
  weakness_percentages : List (String × ℚ)
  most_common_weakness : Option (String × ℚ)
deriving DecidableEq

/-- The aggregation core of `analyze_type_weaknesses` (lines 187-207)
applied to the successfully fetched records: tally weaknesses, divide each
counter by the record count times 100, and take the mode with Python
`max`. -/
def analyzeRecords (records : List CreatureRecord) : AggregateResult :=
  let total := records.length
  let counts := tally records
  let percentages := counts.map (fun wc => (wc.1, ((wc.2 : ℚ) / (total : ℚ)) * 100))
  { analyzed_pokemon_count := total
    weakness_percentages := percentages
    most_common_weakness := pythonMax percentages }

/-- `analyze_type_weaknesses` (lines 179-207): sample the first
`min 10 (length names)` names, fetch each one (an absent result is
skipped), and aggregate. The HTTP data source is an external collaborator,
passed as a function into `Option`. -/
def analyze_type_weaknesses (pokemon_type : String)
    (pokemon_names : List String) (fetch : String → Option CreatureRecord) :
    String × AggregateResult :=
  let sample_size := min 10 pokemon_names.length
  let sample_pokemon := pokemon_names.take sample_size
  (pokemon_type, analyzeRecords (sample_pokemon.filterMap fetch))

/-- The comparison used at `research_agents.py` line 211: percentage of the
first entry at least that of the second (descending order). -/
def percGe (a b : String × ℚ) : Prop := b.2 ≤ a.2

instance : DecidableRel percGe :=
  fun a b => inferInstanceAs (Decidable (b.2 ≤ a.2))

instance : IsTotal (String × ℚ) percGe :=
  ⟨fun a b => le_total b.2 a.2⟩

instance : IsTrans (String × ℚ) percGe :=
  ⟨fun _ _ _ h1 h2 => le_trans h2 h1⟩

/-- Python `sorted(wp.items(), key=..., reverse=True)` at
`research_agents.py` line 211: the stable descending sort of the
percentage mapping, realised as insertion sort (stable sorts with respect
to the same key agree). -/
def sortedFindings (wp : List (String × ℚ)) : List (String × ℚ) :=
  List.insertionSort percGe wp

/-! ## Set lemmas for the resolver -/

theorem setUpdate_toFinset : ∀ (xs s : List String),
    (setUpdate s xs).toFinset = s.toFinset ∪ xs.toFinset := by
  intro xs
  induction xs with
  | nil => intro s; simp [setUpdate]
  | cons x xs ih =>
    intro s
    have h1 : setUpdate s (x :: xs) =
        setUpdate (if x ∈ s then s else s ++ [x]) xs := rfl
    rw [h1, ih]
    by_cases hx : x ∈ s
    · rw [if_pos hx]
      ext a
      simp only [Finset.mem_union, List.mem_toFinset, List.mem_cons]
      constructor
      · tauto
      · rintro (h | rfl | h)
        · exact Or.inl h
        · exact Or.inl hx
        · exact Or.inr h
    · rw [if_neg hx]
      ext a
      simp only [Finset.mem_union, List.mem_toFinset, List.mem_append,
        List.mem_cons, List.not_mem_nil, or_false]
      tauto

theorem filter_not_mem_toFinset (l r : List String) :
    (l.filter (fun w => decide (w ∉ r))).toFinset = l.toFinset \ r.toFinset := by
  ext a
  simp [List.mem_filter, Finset.mem_sdiff]

theorem resolve_foldl_toFinset (table : List (String × List String × List String)) :
    ∀ (types : List String) (acc : List String × List String),
    ((types.foldl (resolveStep table) acc).1.toFinset,
      (types.foldl (resolveStep table) acc).2.toFinset) =
      types.foldl (resolveSpecStep table) (acc.1.toFinset, acc.2.toFinset) := by
  intro types
  induction types with
  | nil => intro acc; rfl
  | cons t ts ih =>
    intro acc
    have h1 : (t :: ts).foldl (resolveStep table) acc =
        ts.foldl (resolveStep table) (resolveStep table acc t) := rfl
    have h2 : (t :: ts).foldl (resolveSpecStep table) (acc.1.toFinset, acc.2.toFinset) =
        ts.foldl (resolveSpecStep table)
          (resolveSpecStep table (acc.1.toFinset, acc.2.toFinset) t) := rfl
    rw [h1, h2, ih (resolveStep table acc t)]
    congr 1
    unfold resolveStep resolveSpecStep
    cases lookupType table t with
    | none => rfl
    | some p => simp [setUpdate_toFinset]

/-! ## Counter lemmas for the analyzer -/

theorem getCount_bump_self : ∀ (c : List (String × Nat)) (w : String),
    getCount (bump c w) w = getCount c w + 1 := by
  intro c w
  induction c with
  | nil => simp [bump, getCount]
  | cons kv rest ih =>
    obtain ⟨k, v⟩ := kv
    by_cases hk : k = w
    · simp [bump, getCount, hk]
    · simp [bump, getCount, hk, ih]

theorem getCount_bump_ne : ∀ (c : List (String × Nat)) (w v : String),
    v ≠ w → getCount (bump c w) v = getCount c v := by
  intro c w v hv
  induction c with
  | nil =>
    have hw : ¬ w = v := fun h => hv h.symm
    simp [bump, getCount, hw]
  | cons kv rest ih =>
    obtain ⟨k, u⟩ := kv
    by_cases hk : k = w
    · subst hk
      have hkv : ¬ k = v := fun h => hv h.symm
      simp [bump, getCount, hkv]
    · by_cases hkv : k = v
      · subst hkv
        simp [bump, getCount, hk]
      · simp [bump, getCount, hk, hkv, ih]

theorem getCount_foldl_bump : ∀ (ws : List String) (c : List (String × Nat))
    (v : String), getCount (ws.foldl bump c) v = getCount c v + ws.count v := by
  intro ws
  induction ws with
  | nil => intro c v; simp
  | cons w ws ih =>
    intro c v
    have h1 : (w :: ws).foldl bump c = ws.foldl bump (bump c w) := rfl
    rw [h1, ih (bump c w) v, List.count_cons]
    by_cases hv : v = w
    · subst hv
      rw [getCount_bump_self, if_pos (beq_self_eq_true v)]
      omega
    · have hb : ¬ ((w == v) = true) := by
        simp only [beq_iff_eq]
        exact fun h => hv h.symm
      rw [getCount_bump_ne c w v hv, if_neg hb]
      omega

theorem getCount_tally_aux :
    ∀ (records : List CreatureRecord) (c : List (String × Nat)) (v : String),
    getCount (records.foldl (fun counts r => r.weaknesses.foldl bump counts) c) v =
      getCount c v + (records.map (fun r => r.weaknesses.count v)).sum := by
  intro records
  induction records with
  | nil => intro c v; simp
  | cons r rs ih =>
    intro c v
    have h1 : (r :: rs).foldl (fun counts x => x.weaknesses.foldl bump counts) c =
        rs.foldl (fun counts x => x.weaknesses.foldl bump counts)
          (r.weaknesses.foldl bump c) := rfl
    rw [h1, ih, getCount_foldl_bump]
    simp [Nat.add_assoc]

theorem keys_bump (c : List (String × Nat)) (w : String) :
    (bump c w).map Prod.fst =
      if w ∈ c.map Prod.fst then c.map Prod.fst else c.map Prod.fst ++ [w] := by
  induction c with
  | nil => simp [bump]
  | cons kv rest ih =>
    obtain ⟨k, v⟩ := kv
    by_cases hk : k = w
    · subst hk
      simp [bump]
    · rw [List.map_cons]
      have h1 : bump ((k, v) :: rest) w = (k, v) :: bump rest w := by
        simp [bump, hk]
      rw [h1, List.map_cons, ih]
      by_cases hw : w ∈ rest.map Prod.fst
      · simp [hw, List.mem_cons, Ne.symm hk]
      · simp [hw, List.mem_cons, Ne.symm hk]

theorem keysNodup_bump (c : List (String × Nat)) (w : String)
    (h : (c.map Prod.fst).Nodup) : ((bump c w).map Prod.fst).Nodup := by
  rw [keys_bump]
  by_cases hw : w ∈ c.map Prod.fst
  · rw [if_pos hw]
    exact h
  · rw [if_neg hw]
    simp [List.nodup_append, h, hw]

theorem keysNodup_foldl_bump : ∀ (ws : List String) (c : List (String × Nat)),
    (c.map Prod.fst).Nodup → ((ws.foldl bump c).map Prod.fst).Nodup := by
  intro ws
  induction ws with
  | nil => intro c h; exact h
  | cons w ws ih =>
    intro c h
    exact ih (bump c w) (keysNodup_bump c w h)

theorem keysNodup_tally_aux :
    ∀ (records : List CreatureRecord) (c : List (String × Nat)),
    (c.map Prod.fst).Nodup →
    ((records.foldl (fun counts r => r.weaknesses.foldl bump counts) c).map
      Prod.fst).Nodup := by
  intro records
  induction records with
  | nil => intro c h; exact h
  | cons r rs ih =>
    intro c h
    exact ih (r.weaknesses.foldl bump c) (keysNodup_foldl_bump r.weaknesses c h)

theorem keysNodup_tally (records : List CreatureRecord) :
    ((tally records).map Prod.fst).Nodup :=
  keysNodup_tally_aux records [] (by simp)

theorem getCount_of_mem : ∀ (c : List (String × Nat)),
    (c.map Prod.fst).Nodup →
    ∀ (w : String) (n : Nat), (w, n) ∈ c → getCount c w = n := by
  intro c
  induction c with
  | nil =>
    intro _ w n h
    cases h
  | cons kv rest ih =>
    intro hnd w n h
    obtain ⟨k, v⟩ := kv
    rcases List.mem_cons.mp h with heq | hmem
    · injection heq with h1 h2
      subst h1
      subst h2
      simp [getCount]
    · have hk : k ≠ w := by
        intro hkw
        subst hkw
        have hmap : k ∈ rest.map Prod.fst := by
          exact List.mem_map.mpr ⟨(k, n), hmem, rfl⟩
        rw [List.map_cons] at hnd
        exact (List.nodup_cons.mp hnd).1 hmap
      rw [List.map_cons] at hnd
      have := ih (List.nodup_cons.mp hnd).2 w n hmem
      simp [getCount, hk, this]

theorem getCount_tally (records : List CreatureRecord) (v : String) :
    getCount (tally records) v =
      (records.map (fun r => r.weaknesses.count v)).sum := by
  have h := getCount_tally_aux records [] v
  simpa [getCount] using h

theorem sum_count_eq_countP :
    ∀ (records : List CreatureRecord) (v : String),
    (∀ r ∈ records, r.weaknesses.Nodup) →
    (records.map (fun r => r.weaknesses.count v)).sum =
      records.countP (fun r => decide (v ∈ r.weaknesses)) := by
  intro records v hnd
  induction records with
  | nil => rfl
  | cons r rs ih =>
    simp only [List.map_cons, List.sum_cons, List.countP_cons]
    rw [List.count_eq_of_nodup (hnd r (List.mem_cons_self r rs))]
    rw [ih (fun x hx => hnd x (List.mem_cons_of_mem r hx))]
    by_cases hv : v ∈ r.weaknesses
    · simp [hv, Nat.add_comm]
    · simp [hv]

/-! ## Theorems -/

/-- C1: for every type list resolved against any table, the resulting
weakness set and resistance set are disjoint, because resistances are
subtracted from the union of per-type weaknesses before being returned. -/
theorem resolve_weaknesses_resistances_disjoint :
    ∀ (types : List String)
      (table : List (String × List String × List String)),
    (resolve types table).1.toFinset ∩ (resolve types table).2.toFinset = ∅ := by
  intro types table
  ext x
  simp only [resolve, Finset.mem_inter, List.mem_toFinset, List.mem_filter,
    decide_eq_true_eq, Finset.not_mem_empty, iff_false, not_and]
  intro hx
  exact hx.2

/-- C2: the resolver agrees with the reference definition written from the
spec's words: per-type union over the types present in the table followed
by subtracting resistances from weaknesses, unknown types silently
skipped; and the empty type list yields two empty sets. -/
theorem resolve_refines_spec :
    (∀ (types : List String)
       (table : List (String × List String × List String)),
       ((resolve types table).1.toFinset, (resolve types table).2.toFinset) =
         resolveSpec types table) ∧
    (∀ table, resolve [] table = ([], [])) := by
  constructor
  · intro types table
    have h := resolve_foldl_toFinset table types ([], [])
    have h1 := congrArg Prod.fst h
    have h2 := congrArg Prod.snd h
    simp only [List.toFinset_nil] at h1 h2
    refine Prod.ext ?_ ?_
    · show ((types.foldl (resolveStep table) ([], [])).1.filter
          (fun w =>
            decide (w ∉ (types.foldl (resolveStep table) ([], [])).2))).toFinset =
        (types.foldl (resolveSpecStep table) (∅, ∅)).1 \
          (types.foldl (resolveSpecStep table) (∅, ∅)).2
      rw [filter_not_mem_toFinset, h1, h2]
    · exact h2
  · intro table
    rfl

/-- C5: the analyzer applied to the empty record sequence returns a valid
zero-size result: count 0, empty percentage mapping and no mode. -/
theorem analyze_empty :
    analyzeRecords [] =
      { analyzed_pokemon_count := 0
        weakness_percentages := []
        most_common_weakness := none } := rfl

/-- C8: resolving the single type "fire" against the static chart yields
weaknesses {water, ground, rock} and resistances
{fire, grass, ice, bug, steel, fairy}. -/
theorem fire_resolution :
    (resolve ["fire"] type_effectiveness).1.toFinset =
      {"water", "ground", "rock"} ∧
    (resolve ["fire"] type_effectiveness).2.toFinset =
      {"fire", "grass", "ice", "bug", "steel", "fairy"} := by
  constructor <;> decide

/-- C3: for every non-empty record sequence (weakness sets being
duplicate-free, as sets are), every percentage returned by the analyzer
lies in [0, 100] and equals the number of records whose weakness set
contains that weakness, divided by the total record count, times 100. -/
theorem analyze_percentages_correct :
    ∀ (records : List CreatureRecord), records ≠ [] →
    (∀ r ∈ records, r.weaknesses.Nodup) →
    ∀ wp ∈ (analyzeRecords records).weakness_percentages,
      0 ≤ wp.2 ∧ wp.2 ≤ 100 ∧
      wp.2 = ((records.countP (fun r => decide (wp.1 ∈ r.weaknesses)) : ℚ) /
        (records.length : ℚ)) * 100 := by
  intro records hne hnd wp hwp
  have hwp2 : wp ∈ (tally records).map
      (fun wc => (wc.1, ((wc.2 : ℚ) / ((records.length : Nat) : ℚ)) * 100)) := hwp
  obtain ⟨wc, hmem, heq⟩ := List.mem_map.mp hwp2
  obtain ⟨w, n⟩ := wc
  subst heq
  have hc : n = records.countP (fun r => decide (w ∈ r.weaknesses)) := by
    have h1 : getCount (tally records) w = n :=
      getCount_of_mem (tally records) (keysNodup_tally records) w n hmem
    rw [← h1, getCount_tally, sum_count_eq_countP records w hnd]
  have hlen : (0 : ℚ) < (records.length : ℚ) := by
    have h2 : 0 < records.length := List.length_pos.mpr hne
    exact_mod_cast h2
  have hle : (n : ℚ) ≤ (records.length : ℚ) := by
    have h3 : n ≤ records.length := by
      rw [hc]
      exact List.countP_le_length _
    exact_mod_cast h3
  refine ⟨?_, ?_, ?_⟩
  · show 0 ≤ ((n : ℚ) / (records.length : ℚ)) * 100
    positivity
  · show ((n : ℚ) / (records.length : ℚ)) * 100 ≤ 100
    calc ((n : ℚ) / (records.length : ℚ)) * 100 ≤ 1 * 100 := by
          apply mul_le_mul_of_nonneg_right ((div_le_one hlen).mpr hle)
          norm_num
      _ = 100 := one_mul 100
  · show ((n : ℚ) / (records.length : ℚ)) * 100 =
      ((records.countP (fun r => decide (w ∈ r.weaknesses)) : ℚ) /
        (records.length : ℚ)) * 100
    rw [hc]

/-- Witness for C3 at a concrete single-record input. -/
theorem analyze_percentages_correct_witness :
    0 ≤ (("grass", (100 : ℚ)) : String × ℚ).2 ∧
    (("grass", (100 : ℚ)) : String × ℚ).2 ≤ 100 ∧
    (("grass", (100 : ℚ)) : String × ℚ).2 =
      ((([⟨"c", [], ["grass"], []⟩] : List CreatureRecord).countP
          (fun r => decide ((("grass", (100 : ℚ)) : String × ℚ).1 ∈ r.weaknesses)) : ℚ) /
        (([⟨"c", [], ["grass"], []⟩] : List CreatureRecord).length : ℚ)) * 100 :=
  analyze_percentages_correct [⟨"c", [], ["grass"], []⟩] (by decide) (by decide)
    ("grass", 100) (by norm_num [analyzeRecords, tally, bump])

theorem pythonMax_foldl : ∀ (xs : List (String × ℚ)) (b : String × ℚ),
    ∃ m, xs.foldl (fun best y => if best.2 < y.2 then y else best) b = m ∧
      ((m = b ∧ ∀ x ∈ xs, x.2 ≤ b.2) ∨
        (∃ l1 l2, xs = l1 ++ m :: l2 ∧ b.2 < m.2 ∧
          (∀ x ∈ l1, x.2 < m.2) ∧ (∀ x ∈ l2, x.2 ≤ m.2))) := by
  intro xs
  induction xs with
  | nil =>
    intro b
    exact ⟨b, rfl, Or.inl ⟨rfl, by simp⟩⟩
  | cons x xs ih =>
    intro b
    have h1 : (x :: xs).foldl (fun best y => if best.2 < y.2 then y else best) b =
        xs.foldl (fun best y => if best.2 < y.2 then y else best)
          (if b.2 < x.2 then x else b) := rfl
    by_cases hbx : b.2 < x.2
    · obtain ⟨m, hm, hcase⟩ := ih x
      refine ⟨m, by rw [h1, if_pos hbx]; exact hm, Or.inr ?_⟩
      rcases hcase with ⟨rfl, hall⟩ | ⟨l1, l2, heq, hlt, hl1, hl2⟩
      · exact ⟨[], xs, rfl, hbx, by simp, hall⟩
      · refine ⟨x :: l1, l2, by rw [heq]; rfl, lt_trans hbx hlt, ?_, hl2⟩
        intro y hy
        rcases List.mem_cons.mp hy with rfl | hy2
        · exact hlt
        · exact hl1 y hy2
    · obtain ⟨m, hm, hcase⟩ := ih b
      have hxb : x.2 ≤ b.2 := le_of_not_lt hbx
      refine ⟨m, by rw [h1, if_neg hbx]; exact hm, ?_⟩
      rcases hcase with ⟨rfl, hall⟩ | ⟨l1, l2, heq, hlt, hl1, hl2⟩
      · refine Or.inl ⟨rfl, ?_⟩
        intro y hy
        rcases List.mem_cons.mp hy with rfl | hy2
        · exact hxb
        · exact hall y hy2
      · refine Or.inr ⟨x :: l1, l2, by rw [heq]; rfl, hlt, ?_, hl2⟩
        intro y hy
        rcases List.mem_cons.mp hy with rfl | hy2
        · exact lt_of_le_of_lt hxb hlt
        · exact hl1 y hy2

theorem pythonMax_first_max : ∀ (l : List (String × ℚ)) (m : String × ℚ),
    pythonMax l = some m →
    ∃ l1 l2, l = l1 ++ m :: l2 ∧ (∀ x ∈ l1, x.2 < m.2) ∧
      (∀ x ∈ l2, x.2 ≤ m.2) := by
  intro l m hm
  cases l with
  | nil => cases hm
  | cons x xs =>
    obtain ⟨m2, hm2, hcase⟩ := pythonMax_foldl xs x
    have hmm : m2 = m := by
      have h1 : pythonMax (x :: xs) = some m2 := by
        show some (xs.foldl (fun best y => if best.2 < y.2 then y else best) x) =
          some m2
        rw [hm2]
      rw [h1] at hm
      exact Option.some.inj hm
    subst hmm
    rcases hcase with ⟨rfl, hall⟩ | ⟨l1, l2, heq, hlt, hl1, hl2⟩
    · exact ⟨[], xs, rfl, by simp, hall⟩
    · refine ⟨x :: l1, l2, by rw [heq]; rfl, ?_, hl2⟩
      intro y hy
      rcases List.mem_cons.mp hy with rfl | hy2
      · exact hlt
      · exact hl1 y hy2

/-- C4: the mode returned by the analyzer is the (weakness, percentage)
pair with the maximal percentage, ties broken by the first position in the
counter mapping (everything before the mode is strictly smaller,
everything after is at most it); and the concrete two-record scenario
yields water 100, ground 50 with mode (water, 100). -/
theorem analyze_mode_correct :
    (∀ (records : List CreatureRecord) (m : String × ℚ),
      (analyzeRecords records).most_common_weakness = some m →
      ∃ l1 l2, (analyzeRecords records).weakness_percentages = l1 ++ m :: l2 ∧
        (∀ x ∈ l1, x.2 < m.2) ∧ (∀ x ∈ l2, x.2 ≤ m.2)) ∧
    analyzeRecords
        [⟨"a", [], ["water", "ground"], []⟩, ⟨"b", [], ["water"], []⟩] =
      { analyzed_pokemon_count := 2
        weakness_percentages := [("water", 100), ("ground", 50)]
        most_common_weakness := some ("water", 100) } := by
  constructor
  · intro records m hm
    exact pythonMax_first_max (analyzeRecords records).weakness_percentages m hm
  · norm_num [analyzeRecords, tally, bump, pythonMax]

/-- Witness for C4 at a concrete single-record input. -/
theorem analyze_mode_correct_witness :
    ∃ l1 l2,
      (analyzeRecords [⟨"c", [], ["grass"], []⟩]).weakness_percentages =
        l1 ++ ("grass", (100 : ℚ)) :: l2 ∧
      (∀ x ∈ l1, x.2 < (("grass", (100 : ℚ)) : String × ℚ).2) ∧
      (∀ x ∈ l2, x.2 ≤ (("grass", (100 : ℚ)) : String × ℚ).2) :=
  analyze_mode_correct.1 [⟨"c", [], ["grass"], []⟩] ("grass", 100)
    (by norm_num [analyzeRecords, tally, bump, pythonMax])

/-- C6: the analyzer is total and its division by the record count is only
reachable when that count is positive: a non-empty percentage mapping
forces a non-empty record sequence, so no division by zero occurs. -/
theorem analyze_no_div_by_zero :
    ∀ (records : List CreatureRecord),
    (analyzeRecords records).weakness_percentages ≠ [] →
    0 < records.length := by
  intro records h
  cases records with
  | nil => exact absurd rfl h
  | cons r rs => simp

/-- Witness for C6 at a concrete input with a non-empty mapping. -/
theorem analyze_no_div_by_zero_witness :
    0 < ([⟨"c", [], ["grass"], []⟩] : List CreatureRecord).length :=
  analyze_no_div_by_zero [⟨"c", [], ["grass"], []⟩] (by decide)

/-- C9: the resolver and the analyzer are deterministic: equal inputs give
equal outputs, including the order of returned lists and mappings. -/
theorem resolve_analyze_deterministic :
    (∀ (t1 t2 : List String)
       (tb1 tb2 : List (String × List String × List String)),
       t1 = t2 → tb1 = tb2 → resolve t1 tb1 = resolve t2 tb2) ∧
    (∀ (r1 r2 : List CreatureRecord),
       r1 = r2 → analyzeRecords r1 = analyzeRecords r2) := by
  refine ⟨fun t1 t2 tb1 tb2 h1 h2 => ?_, fun r1 r2 h => ?_⟩
  · rw [h1, h2]
  · rw [h]

/-- Witness for C9 at concrete inputs. -/
theorem resolve_analyze_deterministic_witness :
    resolve ["fire"] type_effectiveness = resolve ["fire"] type_effectiveness ∧
    analyzeRecords [] = analyzeRecords [] :=
  ⟨resolve_analyze_deterministic.1 ["fire"] ["fire"] type_effectiveness
      type_effectiveness rfl rfl,
    resolve_analyze_deterministic.2 [] [] rfl⟩

theorem filter_orderedInsert (a : String × ℚ) (q : ℚ) :
    ∀ (l : List (String × ℚ)),
    (List.orderedInsert percGe a l).filter (fun x => decide (x.2 = q)) =
      if a.2 = q then a :: l.filter (fun x => decide (x.2 = q))
      else l.filter (fun x => decide (x.2 = q)) := by
  intro l
  induction l with
  | nil =>
    by_cases ha : a.2 = q
    · simp [List.orderedInsert, List.filter, ha]
    · simp [List.orderedInsert, List.filter, ha]
  | cons b l ih =>
    by_cases hab : percGe a b
    · rw [List.orderedInsert, if_pos hab]
      by_cases ha : a.2 = q
      · rw [if_pos ha]
        simp [List.filter_cons, ha]
      · rw [if_neg ha]
        simp [List.filter_cons, ha]
    · rw [List.orderedInsert, if_neg hab]
      have hba : a.2 < b.2 := lt_of_not_le hab
      by_cases ha : a.2 = q
      · have hb : ¬ b.2 = q := by
          intro hbq
          rw [hbq, ← ha] at hba
          exact lt_irrefl a.2 hba
        rw [if_pos ha, List.filter_cons, List.filter_cons, ih, if_pos ha]
        simp [hb]
      · rw [if_neg ha]
        rw [List.filter_cons, List.filter_cons, ih, if_neg ha]

theorem filter_insertionSort_stable (q : ℚ) : ∀ (wp : List (String × ℚ)),
    (List.insertionSort percGe wp).filter (fun x => decide (x.2 = q)) =
      wp.filter (fun x => decide (x.2 = q)) := by
  intro wp
  induction wp with
  | nil => rfl
  | cons a l ih =>
    rw [List.insertionSort, filter_orderedInsert a q, List.filter_cons]
    by_cases ha : a.2 = q
    · rw [if_pos ha, ih]
      simp [ha]
    · rw [if_neg ha, ih]
      simp [ha]

/-- C7: the weakness entries of the findings section are ordered by
descending percentage: the sorted list each entry's percentage is at least
the next one's, it is a permutation of the percentage mapping, and entries
of equal percentage keep the mapping's own iteration order. -/
theorem findings_sorted_desc :
    ∀ (wp : List (String × ℚ)),
      List.Sorted percGe (sortedFindings wp) ∧
      (sortedFindings wp).Perm wp ∧
      ∀ q : ℚ, (sortedFindings wp).filter (fun x => decide (x.2 = q)) =
        wp.filter (fun x => decide (x.2 = q)) := by
  intro wp
  exact ⟨List.sorted_insertionSort percGe wp,
    List.perm_insertionSort percGe wp,
    fun q => filter_insertionSort_stable q wp⟩

/-- C10: the analysis samples at most the first 10 names, so the analyzed
record count never exceeds 10, whatever the data source returns. -/
theorem analyzed_count_le_ten :
    ∀ (t : String) (names : List String)
      (fetch : String → Option CreatureRecord),
    (analyze_type_weaknesses t names fetch).2.analyzed_pokemon_count ≤ 10 := by
  intro t names fetch
  show ((names.take (min 10 names.length)).filterMap fetch).length ≤ 10
  calc ((names.take (min 10 names.length)).filterMap fetch).length
      ≤ (names.take (min 10 names.length)).length :=
        List.length_filterMap_le fetch _
    _ = min (min 10 names.length) names.length := List.length_take _ _
    _ ≤ 10 := le_trans (min_le_left _ _) (min_le_left _ _)

end PokemonResearch
